import Mathlib

/-!
Shallow embedding of guregu/tesuto (tesuto.go): a declarative harness for
exercising an HTTP endpoint and asserting on its response.

The repository's own code (testCase, the option constructors, the executor
returned by testCase.fn, and the NotEmpty comparison option) is translated
definition-by-definition from src/tesuto.go.  Behaviour of the standard-library
collaborators that the code calls into (net/http header canonicalization and
Set/Add/Get, net/url query escaping and Values.Encode, encoding/json
marshalling) is embedded from those libraries' documented semantics, since the
claims quantify over their outputs.
-/

namespace Tesuto

/-! ### encoding/json collaborator: JSON values and marshalling -/

/-- JSON-marshallable values (models the `interface{}` inputs handed to
`encoding/json`).  Objects keep field order, as Go struct marshalling does. -/
inductive Jval where
  | null : Jval
  | bool (b : Bool) : Jval
  | num (n : Int) : Jval
  | str (s : String) : Jval
  | arr (xs : List Jval) : Jval
  | obj (fields : List (String × Jval)) : Jval

/-- Lower-case hexadecimal digit, as used by encoding/json escapes. -/
def hexDigitLower (n : Nat) : Char :=
  if n < 10 then Char.ofNat (48 + n) else Char.ofNat (87 + n)

/-- String-character escaping of `encoding/json` (HTML escaping on, its
default for `json.Marshal`): quote, backslash, newline/return/tab, other
control characters as \u00XX, the HTML-sensitive `<` `>` `&` as < etc.,
and U+2028/U+2029. -/
def jsonEscapeChar (c : Char) : List Char :=
  if c = '"' then ['\\', '"']
  else if c = '\\' then ['\\', '\\']
  else if c = '\n' then ['\\', 'n']
  else if c = '\r' then ['\\', 'r']
  else if c = '\t' then ['\\', 't']
  else if c = '<' then ['\\', 'u', '0', '0', '3', 'c']
  else if c = '>' then ['\\', 'u', '0', '0', '3', 'e']
  else if c = '&' then ['\\', 'u', '0', '0', '2', '6']
  else if c.toNat < 32 then
    ['\\', 'u', '0', '0', hexDigitLower (c.toNat / 16), hexDigitLower (c.toNat % 16)]
  else if c.toNat = 8232 then ['\\', 'u', '2', '0', '2', '8']
  else if c.toNat = 8233 then ['\\', 'u', '2', '0', '2', '9']
  else [c]

/-- JSON rendering of a string literal. -/
def jsonString (s : String) : String :=
  ⟨'"' :: (s.toList.map jsonEscapeChar).flatten ++ ['"']⟩

/-- `json.Marshal` on the embedded value domain. -/
def jsonMarshal : Jval → String
  | .null => "null"
  | .bool true => "true"
  | .bool false => "false"
  | .num n => toString n
  | .str s => jsonString s
  | .arr xs =>
    "[" ++ String.intercalate "," (xs.attach.map fun x => jsonMarshal x.1) ++ "]"
  | .obj fs =>
    "\x7b" ++
      String.intercalate ","
        (fs.attach.map fun f => jsonString f.1.1 ++ ":" ++ jsonMarshal f.1.2) ++
      "\x7d"
decreasing_by
  · have := List.sizeOf_lt_of_mem x.2
    simp only [Jval.arr.sizeOf_spec]
    omega
  · obtain ⟨⟨k, v⟩, hm⟩ := f
    have h1 := List.sizeOf_lt_of_mem hm
    simp only [Jval.obj.sizeOf_spec, Prod.mk.sizeOf_spec] at h1 ⊢
    omega

/-! ### net/http and net/textproto collaborator: headers -/

/-- `validHeaderFieldByte` of net/textproto: the token characters of a MIME
header key. -/
def validHeaderFieldByte (c : Char) : Bool :=
  ('0' ≤ c && c ≤ '9') || ('a' ≤ c && c ≤ 'z') || ('A' ≤ c && c ≤ 'Z') ||
  c == '!' || c == '#' || c == '$' || c == '%' || c == '&' ||
  c == Char.ofNat 39 || c == '*' || c == '+' || c == '-' || c == '.' ||
  c == '^' || c == '_' || c == Char.ofNat 96 || c == '|' || c == '~'

/-- ASCII upper-casing of a single character, as Go applies to header bytes. -/
def asciiUpper (c : Char) : Char :=
  if 'a' ≤ c && c ≤ 'z' then Char.ofNat (c.toNat - 32) else c

/-- ASCII lower-casing of a single character, as Go applies to header bytes. -/
def asciiLower (c : Char) : Char :=
  if 'A' ≤ c && c ≤ 'Z' then Char.ofNat (c.toNat + 32) else c

/-- Canonicalization pass of `textproto.CanonicalMIMEHeaderKey`: upper-case at
the start and after each hyphen, lower-case elsewhere. -/
def canonChars : Bool → List Char → List Char
  | _, [] => []
  | upper, c :: cs =>
    (if upper then asciiUpper c else asciiLower c) :: canonChars (c == '-') cs

/-- `http.CanonicalHeaderKey`: returns the key unchanged when it holds any
invalid header byte, otherwise canonicalizes the casing. -/
def canonicalHeaderKey (s : String) : String :=
  if s.toList.all validHeaderFieldByte then ⟨canonChars true s.toList⟩ else s

/-- `http.Header`: a map from canonical header keys to ordered value lists,
embedded as a total function (absent keys map to `[]`). -/
def Headers : Type := String → List String

/-- A header map with no entries. -/
def emptyHeaders : Headers := fun _ => []

/-- `Header.Set`: replaces the values under the key's canonical form with the
single given value. -/
def headerSet (h : Headers) (key value : String) : Headers :=
  fun k => if k = canonicalHeaderKey key then [value] else h k

/-- `Header.Add`: appends the value under the key's canonical form. -/
def headerAdd (h : Headers) (key value : String) : Headers :=
  fun k => if k = canonicalHeaderKey key then h k ++ [value] else h k

/-- `Header.Get`: first value under the key's canonical form, or "". -/
def headerGet (h : Headers) (key : String) : String :=
  (h (canonicalHeaderKey key)).headD ""

/-- The outbound request, as far as the claims observe it: its header map.
`http.NewRequest` starts from an empty header map. -/
structure Request where
  headers : Headers

/-- The request as built by `http.NewRequest` before any mutator runs. -/
def emptyRequest : Request := ⟨emptyHeaders⟩

/-- Runs a list of request mutators left to right, as the executor's
`for _, mut := range tc.mutateReq` loop does. -/
def applyMutators : List (Request → Request) → Request → Request
  | [], r => r
  | m :: ms, r => applyMutators ms (m r)

/-! ### net/url collaborator: query escaping and Values.Encode -/

/-- Upper-case hexadecimal digit, as used by percent-escapes in net/url. -/
def hexDigitUpper (n : Nat) : Char :=
  if n < 10 then Char.ofNat (48 + n) else Char.ofNat (55 + n)

/-- UTF-8 byte sequence of a character (net/url escapes byte by byte). -/
def utf8Bytes (c : Char) : List Nat :=
  let n := c.toNat
  if n < 128 then [n]
  else if n < 2048 then [192 + n / 64, 128 + n % 64]
  else if n < 65536 then [224 + n / 4096, 128 + (n / 64) % 64, 128 + n % 64]
  else [240 + n / 262144, 128 + (n / 4096) % 64, 128 + (n / 64) % 64, 128 + n % 64]

/-- Characters `url.QueryEscape` leaves unescaped: ASCII alphanumerics and
`-` `_` `.` `~`. -/
def queryNoEscape (c : Char) : Bool :=
  ('0' ≤ c && c ≤ '9') || ('a' ≤ c && c ≤ 'z') || ('A' ≤ c && c ≤ 'Z') ||
  c == '-' || c == '_' || c == '.' || c == '~'

/-- Percent-escape of one byte. -/
def pctByte (b : Nat) : List Char :=
  ['%', hexDigitUpper (b / 16), hexDigitUpper (b % 16)]

/-- `url.QueryEscape` on one character: kept, space to `+`, else each UTF-8
byte percent-escaped. -/
def queryEscapeChar (c : Char) : List Char :=
  if queryNoEscape c then [c]
  else if c = ' ' then ['+']
  else ((utf8Bytes c).map pctByte).flatten

/-- `url.QueryEscape`. -/
def queryEscape (s : String) : String :=
  ⟨(s.toList.map queryEscapeChar).flatten⟩

/-- Insertion into a key-sorted association list (models `sort.Strings` over
the keys in `url.Values.Encode`). -/
def insertByKey (p : String × List String) :
    List (String × List String) → List (String × List String)
  | [] => [p]
  | q :: qs => if p.1 ≤ q.1 then p :: q :: qs else q :: insertByKey p qs

/-- Key-sorting pass of `url.Values.Encode`. -/
def sortByKey (l : List (String × List String)) : List (String × List String) :=
  l.foldr insertByKey []

/-- `url.Values.Encode`: keys sorted, each value rendered as
`QueryEscape(k)=QueryEscape(v)`, joined with `&`. -/
def urlValuesEncode (values : List (String × List String)) : String :=
  String.intercalate "&"
    ((sortByKey values).map (fun p =>
        p.2.map fun v => queryEscape p.1 ++ "=" ++ queryEscape v)).flatten

/-! ### The test-case specification (struct testCase of tesuto.go)

`α` is the static type of the expected structured value (the Go code stores it
as `interface{}` and recovers the type by reflection; the embedding carries it
as a parameter).  The request body (`input`, an `io.Reader` in Go) is embedded
as the byte string it yields, `none` for a nil reader.  `grabOutput` records
whether a capture destination pointer was supplied; `jar` whether a cookie jar
was. -/
structure testCase (α : Type) where
  method : String
  path : String
  mutateReq : List (Request → Request)
  input : Option String
  jar : Bool
  expectCode : Nat
  expectRaw : Option String
  expectJSON : Option α
  expectHeaders : List (String × String)
  grabOutput : Bool
  fatalFailure : Bool

/-- The fresh specification `Test` builds before applying options: method and
path set, `expectHeaders` an empty map, everything else zero-valued. -/
def newTestCase (α : Type) (method path : String) : testCase α :=
  { method := method
    path := path
    mutateReq := []
    input := none
    jar := false
    expectCode := 0
    expectRaw := none
    expectJSON := none
    expectHeaders := []
    grabOutput := false
    fatalFailure := false }

/-- `TestOption`: a deferred mutation of the specification (state-passing in
place of Go's in-place mutation). -/
def TestOption (α : Type) : Type := testCase α → testCase α

/-- The `for _, opt := range opts { opt(tc) }` loop of `Test`. -/
def runOpts (opts : List (TestOption α)) (tc : testCase α) : testCase α :=
  opts.foldl (fun tc opt => opt tc) tc

/-! ### Options -/

/-- `WithInput`: sets the request body reader. -/
def WithInput (r : Option String) : TestOption α :=
  fun tc => { tc with input := r }

/-- The request mutator queued by the body-encoding options:
`r.Header.Set("Content-Type", v)`. -/
def setContentType (v : String) : Request → Request :=
  fun r => { r with headers := headerSet r.headers "Content-Type" v }

/-- `json.Marshal` applied to the `io.Reader` stored in the `input` field, as
`WithJSONInput` does: a nil reader marshals to `null`; the non-nil readers the
package stores there (`bytes.Reader` / `strings.Reader` values) expose no
exported fields and marshal to an empty object. -/
def jsonMarshalReader : Option String → String
  | none => "null"
  | some _ => "\x7b\x7d"

/-- `WithJSONInput`: NOTE — translated exactly from the source, where the
body is computed as `json.Marshal(tc.input)` (the specification's current
input field), not from the option's `input` argument, which is never read. -/
def WithJSONInput (input : Jval) : TestOption α :=
  fun tc =>
    { tc with
      input := some (jsonMarshalReader tc.input)
      mutateReq := tc.mutateReq ++ [setContentType "application/json"] }

/-- `WithFormInput`: URL-encodes the values as the body and queues a
Content-Type mutator for the form media type. -/
def WithFormInput (values : List (String × List String)) : TestOption α :=
  fun tc =>
    { tc with
      input := some (urlValuesEncode values)
      mutateReq := tc.mutateReq ++ [setContentType "application/x-www-form-urlencoded"] }

/-- The request mutator queued by `WithHeader`: `Set` when the name
canonicalizes to Content-Type (so it can override a WithXInput default),
`Add` otherwise. -/
def withHeaderMutator (name value : String) : Request → Request :=
  fun r =>
    if canonicalHeaderKey name == "Content-Type" then
      { r with headers := headerSet r.headers name value }
    else
      { r with headers := headerAdd r.headers name value }

/-- `WithHeader`: queues a request mutator for the given header. -/
def WithHeader (name value : String) : TestOption α :=
  fun tc => { tc with mutateReq := tc.mutateReq ++ [withHeaderMutator name value] }

/-- `WithCookieJar`: attaches a cookie jar (only its presence is observable
to the claims). -/
def WithCookieJar : TestOption α :=
  fun tc => { tc with jar := true }

/-- `ExpectStatusCode`: sets the expected HTTP status code. -/
def ExpectStatusCode (code : Nat) : TestOption α :=
  fun tc => { tc with expectCode := code }

/-- Map-style insertion used by `ExpectHeader` (`tc.expectHeaders[name] = v`):
replaces an existing entry for the key, otherwise appends. -/
def mapSet (name value : String) : List (String × String) → List (String × String)
  | [] => [(name, value)]
  | (k, v) :: rest =>
    if k = name then (k, value) :: rest else (k, v) :: mapSet name value rest

/-- `ExpectHeader`: records an expected response header. -/
def ExpectHeader (name value : String) : TestOption α :=
  fun tc => { tc with expectHeaders := mapSet name value tc.expectHeaders }

/-- `ExpectRawResponse`: sets the exact expected body; the Go argument is a
byte slice, whose nil/non-nil distinction is `none`/`some`. -/
def ExpectRawResponse (body : Option String) : TestOption α :=
  fun tc => { tc with expectRaw := body }

/-- `ExpectJSONResponse`: sets the deep-equality template (the comparison
options it also stores are embedded in the diff function handed to the
executor). -/
def ExpectJSONResponse (output : α) : TestOption α :=
  fun tc => { tc with expectJSON := some output }

/-- `GrabJSONResponse`: configures a capture destination. -/
def GrabJSONResponse : TestOption α :=
  fun tc => { tc with grabOutput := true }

/-- `FatalFailure`: makes the test fail-fast. -/
def FatalFailure : TestOption α :=
  fun tc => { tc with fatalFailure := true }

/-! ### go-cmp collaborator: the NotEmpty comparison option

`NotEmpty(name)` is `FilterPath(path = name, FilterValues(both non-zero,
Comparer(always true)))`: at the targeted path, when the filter predicate
holds the constant-true comparer decides equality; otherwise the option does
not apply and cmp falls back to ordinary structural equality. -/

/-- The `FilterValues` predicate of `NotEmpty`: both operands differ from
their type's zero value (`zero` embeds `reflect.Zero(reflect.TypeOf(x))`). -/
def notEmptyFilter {α : Type} [DecidableEq α] (zero x y : α) : Bool :=
  !(decide (x = zero)) && !(decide (y = zero))

/-- Equality at a path targeted by `NotEmpty`: the constant-true comparer when
the filter applies, ordinary equality otherwise. -/
def notEmptyCompare {α : Type} [DecidableEq α] (zero x y : α) : Bool :=
  if notEmptyFilter zero x y then true else decide (x = y)

/-! ### The executor (testCase.fn of tesuto.go)

The executor is embedded from the point where the response is available: the
`Response` structure holds the status code, the header map, the bytes obtained
by `ioutil.ReadAll` and whether that read returned an error (in which case the
bytes are whatever partial data was obtained).  Its observable behaviour — the
diagnostic logs, the reported failures (`t.Errorf`), the fatal failures
(`t.Fatalf`/`t.Fatal`, which stop the test function), and the write into the
capture target — is the list of `Event`s it emits, in order. -/

structure Response where
  statusCode : Nat
  headers : Headers
  body : String
  readErr : Bool

/-- Observable actions of one executor run, in program order. -/
inductive Event where
  /-- `t.Error("error reading body:", err)` -/
  | errorReadBody : Event
  /-- `t.Log("output:\n", string(gotRaw))` -/
  | logRaw (body : String) : Event
  /-- status-code mismatch reported through `fail` -/
  | failStatus (msg : String) : Event
  /-- header mismatch reported through `fail` -/
  | failHeader (msg : String) : Event
  /-- `t.Logf("header dump: ...")` after a header mismatch -/
  | logHeaderDump : Event
  /-- raw-body mismatch reported through `fail` -/
  | failRaw (msg : String) : Event
  /-- `t.Fatal(err)` on a structured-decode failure -/
  | fatalDecode (msg : String) : Event
  /-- non-empty structured diff reported through `fail` -/
  | failDiff (msg : String) : Event
  /-- `json.Unmarshal(gotRaw, tc.grabOutput)` succeeded: capture written -/
  | captured : Event
  /-- `t.Fatal(err)` on a capture-decode failure -/
  | fatalCaptureDecode (msg : String) : Event
deriving DecidableEq

/-- `"[%s %s] unexpected response code: want %v, got %v"` -/
def statusMsg (method path : String) (want got : Nat) : String :=
  "[" ++ method ++ " " ++ path ++ "] unexpected response code: want " ++
    Nat.repr want ++ ", got " ++ Nat.repr got

/-- `"[%s %s] unexpected response header (%s): want %v, got %v"` -/
def headerMsg (method path name want got : String) : String :=
  "[" ++ method ++ " " ++ path ++ "] unexpected response header (" ++ name ++
    "): want " ++ want ++ ", got " ++ got

/-- `"[%s %s] raw output mismatch:\nwant: %s\ngot: %s"` -/
def rawMsg (method path want got : String) : String :=
  "[" ++ method ++ " " ++ path ++ "] raw output mismatch:\nwant: " ++ want ++
    "\ngot: " ++ got

/-- `"[%s %s] output mismatch (-want +got):\n%s"` -/
def diffMsg (method path diff : String) : String :=
  "[" ++ method ++ " " ++ path ++ "] output mismatch (-want +got):\n" ++ diff

/-- Result of one executor step: the events it emitted, and whether it ended
the test function (`halt`, Go's `t.Fatal`/`t.Fatalf` via `runtime.Goexit`). -/
inductive StepRes where
  | ok (evs : List Event) : StepRes
  | halt (evs : List Event) : StepRes
deriving DecidableEq

/-- The events a step emitted. -/
def StepRes.evs : StepRes → List Event
  | .ok e => e
  | .halt e => e

/-- Sequencing of steps: once a step halts, nothing later runs. -/
def seqStep : StepRes → StepRes → StepRes
  | .halt e, _ => .halt e
  | .ok e, .ok e2 => .ok (e ++ e2)
  | .ok e, .halt e2 => .halt (e ++ e2)

/-- One failure through the `fail` variable: `t.Fatalf` when fail-fast is
configured, `t.Errorf` otherwise. -/
def failStep (fatal : Bool) (ev : Event) : StepRes :=
  if fatal then .halt [ev] else .ok [ev]

/-- Body read: a read error is reported with `t.Error` (never through `fail`)
and processing continues with the bytes obtained. -/
def stepRead (resp : Response) : StepRes :=
  .ok (if resp.readErr then [.errorReadBody] else [])

/-- Unconditional diagnostic dump of the raw body. -/
def stepLog (resp : Response) : StepRes :=
  .ok [.logRaw resp.body]

/-- Status-code assertion: skipped when the expected code is zero. -/
def stepStatus (tc : testCase α) (resp : Response) : StepRes :=
  if tc.expectCode != 0 && resp.statusCode != tc.expectCode then
    failStep tc.fatalFailure
      (.failStatus (statusMsg tc.method tc.path tc.expectCode resp.statusCode))
  else .ok []

/-- Header assertions: each expected header checked with `resp.Header.Get`;
a mismatch is reported through `fail`, followed (when not fatal) by the
header-dump log. -/
def stepHeaders (method path : String) (fatal : Bool) (resp : Response) :
    List (String × String) → StepRes
  | [] => .ok []
  | (k, v) :: rest =>
    if headerGet resp.headers k != v then
      if fatal then .halt [.failHeader (headerMsg method path k v (headerGet resp.headers k))]
      else
        seqStep (.ok [.failHeader (headerMsg method path k v (headerGet resp.headers k)),
                      .logHeaderDump])
          (stepHeaders method path fatal resp rest)
    else stepHeaders method path fatal resp rest

/-- Raw-body assertion: skipped when `expectRaw` is nil; otherwise exact byte
equality. -/
def stepRaw (tc : testCase α) (resp : Response) : StepRes :=
  match tc.expectRaw with
  | none => .ok []
  | some want =>
    if want != resp.body then
      failStep tc.fatalFailure (.failRaw (rawMsg tc.method tc.path want resp.body))
    else .ok []

/-- Structured assertion: skipped when `expectJSON` is nil; decode failure is
fatal; a non-empty diff is reported through `fail`.  `d` embeds
`json.Unmarshal` into a fresh value of `α`; `f` embeds `cmp.Diff` with the
configured comparison options. -/
def stepJSON (d : String → Except String α) (f : α → α → String)
    (tc : testCase α) (resp : Response) : StepRes :=
  match tc.expectJSON with
  | none => .ok []
  | some want =>
    match d resp.body with
    | .error e => .halt [.fatalDecode e]
    | .ok output =>
      if f want output != "" then
        failStep tc.fatalFailure (.failDiff (diffMsg tc.method tc.path (f want output)))
      else .ok []

/-- Capture: when a capture target is configured, decode the raw body into it;
decode failure is fatal.  `dg` embeds `json.Unmarshal` into the target's
type `γ`. -/
def stepCapture (dg : String → Except String γ) (tc : testCase α)
    (resp : Response) : StepRes :=
  if tc.grabOutput then
    match dg resp.body with
    | .error e => .halt [.fatalCaptureDecode e]
    | .ok _ => .ok [.captured]
  else .ok []

/-- The executor of `testCase.fn` from the body read on: read, log, then the
assertions in their fixed program order. -/
def runAssertions (d : String → Except String α) (dg : String → Except String γ)
    (f : α → α → String) (tc : testCase α) (resp : Response) : List Event :=
  (seqStep (stepRead resp)
    (seqStep (stepLog resp)
      (seqStep (stepStatus tc resp)
        (seqStep (stepHeaders tc.method tc.path tc.fatalFailure resp tc.expectHeaders)
          (seqStep (stepRaw tc resp)
            (seqStep (stepJSON d f tc resp)
              (stepCapture dg tc resp))))))).evs

/-- Pipeline position of each event kind, for stating the fixed assertion
order. -/
def stepTag : Event → Nat
  | .errorReadBody => 0
  | .logRaw _ => 1
  | .failStatus _ => 2
  | .failHeader _ => 3
  | .logHeaderDump => 3
  | .failRaw _ => 4
  | .fatalDecode _ => 5
  | .failDiff _ => 5
  | .captured => 6
  | .fatalCaptureDecode _ => 6

/-! ### Executor lemmas -/

theorem seq_ok_evs (e : List Event) (t : StepRes) :
    (seqStep (.ok e) t).evs = e ++ t.evs := by
  cases t <;> rfl

theorem seq_halt_evs (e : List Event) (t : StepRes) :
    (seqStep (.halt e) t).evs = e := rfl

theorem mem_seq {x : Event} {s t : StepRes} (h : x ∈ (seqStep s t).evs) :
    x ∈ s.evs ∨ x ∈ t.evs := by
  cases s with
  | halt e => exact Or.inl h
  | ok e =>
    rw [seq_ok_evs] at h
    exact List.mem_append.mp h

theorem mem_seq_left {x : Event} {s : StepRes} (t : StepRes) (h : x ∈ s.evs) :
    x ∈ (seqStep s t).evs := by
  cases s with
  | halt e => exact h
  | ok e => rw [seq_ok_evs]; exact List.mem_append_left _ h

theorem mem_seq_right {x : Event} {e : List Event} {s t : StepRes}
    (hs : s = .ok e) (h : x ∈ t.evs) : x ∈ (seqStep s t).evs := by
  subst hs; rw [seq_ok_evs]; exact List.mem_append_right _ h

theorem mem_stepRead {e : Event} {resp : Response}
    (h : e ∈ (stepRead resp).evs) : e = .errorReadBody := by
  unfold stepRead at h
  split at h
  · simp [StepRes.evs] at h
    exact h
  · simp [StepRes.evs] at h

theorem mem_stepLog {e : Event} {resp : Response}
    (h : e ∈ (stepLog resp).evs) : e = .logRaw resp.body := by
  simpa [stepLog, StepRes.evs] using h

theorem mem_stepStatus {α : Type} {e : Event} {tc : testCase α} {resp : Response}
    (h : e ∈ (stepStatus tc resp).evs) :
    (∃ m, e = .failStatus m) ∧ tc.expectCode ≠ 0 := by
  unfold stepStatus at h
  split at h
  · next hc =>
    unfold failStep at h
    have hc0 : tc.expectCode ≠ 0 := by
      rcases Bool.and_eq_true_iff.mp hc with ⟨h1, _⟩
      exact bne_iff_ne.mp h1
    refine ⟨?_, hc0⟩
    split at h <;> simp [StepRes.evs] at h <;> exact ⟨_, h⟩
  · simp [StepRes.evs] at h

theorem mem_stepHeaders {e : Event} {m p : String} {fatal : Bool}
    {resp : Response} {hs : List (String × String)}
    (h : e ∈ (stepHeaders m p fatal resp hs).evs) :
    (∃ s, e = .failHeader s) ∨ e = .logHeaderDump := by
  induction hs with
  | nil => simp [stepHeaders, StepRes.evs] at h
  | cons kv rest ih =>
    unfold stepHeaders at h
    split at h
    · split at h
      · simp [StepRes.evs] at h
        exact Or.inl ⟨_, h⟩
      · rcases mem_seq h with h1 | h1
        · simp [StepRes.evs] at h1
          rcases h1 with h1 | h1
          · exact Or.inl ⟨_, h1⟩
          · exact Or.inr h1
        · exact ih h1
    · exact ih h

theorem mem_stepRaw {α : Type} {e : Event} {tc : testCase α} {resp : Response}
    (h : e ∈ (stepRaw tc resp).evs) :
    (∃ m, e = .failRaw m) ∧ tc.expectRaw ≠ none := by
  unfold stepRaw at h
  split at h
  · simp [StepRes.evs] at h
  · next want heq =>
    constructor
    · split at h
      · unfold failStep at h
        split at h <;> simp [StepRes.evs] at h <;> exact ⟨_, h⟩
      · simp [StepRes.evs] at h
    · simp [heq]

theorem mem_stepJSON {α : Type} {e : Event} {d : String → Except String α}
    {f : α → α → String} {tc : testCase α} {resp : Response}
    (h : e ∈ (stepJSON d f tc resp).evs) :
    ((∃ m, e = .fatalDecode m) ∨ (∃ m, e = .failDiff m)) ∧ tc.expectJSON ≠ none := by
  unfold stepJSON at h
  split at h
  · simp [StepRes.evs] at h
  · next want heq =>
    refine ⟨?_, by simp [heq]⟩
    split at h
    · simp [StepRes.evs] at h
      exact Or.inl ⟨_, h⟩
    · split at h
      · unfold failStep at h
        split at h <;> simp [StepRes.evs] at h <;> exact Or.inr ⟨_, h⟩
      · simp [StepRes.evs] at h

theorem mem_stepCapture {α γ : Type} {e : Event} {dg : String → Except String γ}
    {tc : testCase α} {resp : Response}
    (h : e ∈ (stepCapture dg tc resp).evs) :
    (e = .captured ∨ ∃ m, e = .fatalCaptureDecode m) ∧ tc.grabOutput = true := by
  unfold stepCapture at h
  split at h
  · next hg =>
    refine ⟨?_, hg⟩
    split at h
    · simp [StepRes.evs] at h
      exact Or.inr ⟨_, h⟩
    · simp [StepRes.evs] at h
      exact Or.inl h
  · simp [StepRes.evs] at h

/-- Decomposition of one run into the events of its seven steps. -/
theorem mem_run {α γ : Type} {e : Event} {d : String → Except String α}
    {dg : String → Except String γ} {f : α → α → String}
    {tc : testCase α} {resp : Response}
    (h : e ∈ runAssertions d dg f tc resp) :
    e ∈ (stepRead resp).evs ∨ e ∈ (stepLog resp).evs ∨
    e ∈ (stepStatus tc resp).evs ∨
    e ∈ (stepHeaders tc.method tc.path tc.fatalFailure resp tc.expectHeaders).evs ∨
    e ∈ (stepRaw tc resp).evs ∨ e ∈ (stepJSON d f tc resp).evs ∨
    e ∈ (stepCapture dg tc resp).evs := by
  unfold runAssertions at h
  rcases mem_seq h with h | h
  · exact Or.inl h
  rcases mem_seq h with h | h
  · exact Or.inr (Or.inl h)
  rcases mem_seq h with h | h
  · exact Or.inr (Or.inr (Or.inl h))
  rcases mem_seq h with h | h
  · exact Or.inr (Or.inr (Or.inr (Or.inl h)))
  rcases mem_seq h with h | h
  · exact Or.inr (Or.inr (Or.inr (Or.inr (Or.inl h))))
  rcases mem_seq h with h | h
  · exact Or.inr (Or.inr (Or.inr (Or.inr (Or.inr (Or.inl h)))))
  · exact Or.inr (Or.inr (Or.inr (Or.inr (Or.inr (Or.inr h)))))

theorem failStep_false (ev : Event) : failStep false ev = .ok [ev] := rfl

theorem failStep_true (ev : Event) : failStep true ev = .halt [ev] := rfl

theorem pairwise_of_const_tag {n : Nat} {l : List Event}
    (h : ∀ e ∈ l, stepTag e = n) :
    List.Pairwise (fun a b => stepTag a ≤ stepTag b) l := by
  induction l with
  | nil => exact List.Pairwise.nil
  | cons a t ih =>
    refine List.Pairwise.cons (fun b hb => ?_)
      (ih fun e he => h e (List.mem_cons_of_mem _ he))
    rw [h a (List.mem_cons_self _ _), h b (List.mem_cons_of_mem _ hb)]

/-- Sequencing two tag-sorted steps whose tag ranges are adjacent yields a
tag-sorted event list. -/
theorem seq_pairwise (lo mid hi : Nat) {s t : StepRes}
    (hlo : lo ≤ mid) (hmh : mid ≤ hi)
    (hs : ∀ e ∈ s.evs, lo ≤ stepTag e ∧ stepTag e ≤ mid)
    (hps : List.Pairwise (fun a b => stepTag a ≤ stepTag b) s.evs)
    (ht : ∀ e ∈ t.evs, mid ≤ stepTag e ∧ stepTag e ≤ hi)
    (hpt : List.Pairwise (fun a b => stepTag a ≤ stepTag b) t.evs) :
    (∀ e ∈ (seqStep s t).evs, lo ≤ stepTag e ∧ stepTag e ≤ hi) ∧
      List.Pairwise (fun a b => stepTag a ≤ stepTag b) (seqStep s t).evs := by
  cases s with
  | halt e =>
    rw [seq_halt_evs]
    exact ⟨fun x hx => ⟨(hs x hx).1, (hs x hx).2.trans hmh⟩, hps⟩
  | ok e =>
    rw [seq_ok_evs]
    constructor
    · intro x hx
      rcases List.mem_append.mp hx with hx | hx
      · exact ⟨(hs x hx).1, (hs x hx).2.trans hmh⟩
      · exact ⟨hlo.trans (ht x hx).1, (ht x hx).2⟩
    · exact List.pairwise_append.mpr
        ⟨hps, hpt, fun a ha b hb => (hs a ha).2.trans (ht b hb).1⟩

theorem stepRead_tag (resp : Response) : ∀ e ∈ (stepRead resp).evs, stepTag e = 0 :=
  fun e he => by rw [mem_stepRead he]; rfl

theorem stepLog_tag (resp : Response) : ∀ e ∈ (stepLog resp).evs, stepTag e = 1 :=
  fun e he => by rw [mem_stepLog he]; rfl

theorem stepStatus_tag {α : Type} (tc : testCase α) (resp : Response) :
    ∀ e ∈ (stepStatus tc resp).evs, stepTag e = 2 := by
  intro e he
  rcases (mem_stepStatus he).1 with ⟨m, rfl⟩
  rfl

theorem stepHeaders_tag (m p : String) (fatal : Bool) (resp : Response)
    (hs : List (String × String)) :
    ∀ e ∈ (stepHeaders m p fatal resp hs).evs, stepTag e = 3 := by
  intro e he
  rcases mem_stepHeaders he with ⟨s, rfl⟩ | rfl <;> rfl

theorem stepRaw_tag {α : Type} (tc : testCase α) (resp : Response) :
    ∀ e ∈ (stepRaw tc resp).evs, stepTag e = 4 := by
  intro e he
  rcases (mem_stepRaw he).1 with ⟨m, rfl⟩
  rfl

theorem stepJSON_tag {α : Type} (d : String → Except String α)
    (f : α → α → String) (tc : testCase α) (resp : Response) :
    ∀ e ∈ (stepJSON d f tc resp).evs, stepTag e = 5 := by
  intro e he
  rcases (mem_stepJSON he).1 with ⟨m, rfl⟩ | ⟨m, rfl⟩ <;> rfl

theorem stepCapture_tag {α γ : Type} (dg : String → Except String γ)
    (tc : testCase α) (resp : Response) :
    ∀ e ∈ (stepCapture dg tc resp).evs, stepTag e = 6 := by
  intro e he
  rcases (mem_stepCapture he).1 with rfl | ⟨m, rfl⟩ <;> rfl

/-- The events of one run are sorted by pipeline position: the executor
evaluates the read, the diagnostic dump, and then the assertions in the fixed
program order. -/
theorem tag_bounds {n lo hi : Nat} {l : List Event}
    (h : ∀ e ∈ l, stepTag e = n) (h1 : lo ≤ n) (h2 : n ≤ hi) :
    ∀ e ∈ l, lo ≤ stepTag e ∧ stepTag e ≤ hi :=
  fun e he => by rw [h e he]; exact ⟨h1, h2⟩

theorem bounds_mono {lo lo' hi : Nat} {l : List Event}
    (h : ∀ e ∈ l, lo ≤ stepTag e ∧ stepTag e ≤ hi) (hl : lo' ≤ lo) :
    ∀ e ∈ l, lo' ≤ stepTag e ∧ stepTag e ≤ hi :=
  fun e he => ⟨hl.trans (h e he).1, (h e he).2⟩

theorem run_pairwise {α γ : Type} (d : String → Except String α)
    (dg : String → Except String γ) (f : α → α → String)
    (tc : testCase α) (resp : Response) :
    List.Pairwise (fun a b => stepTag a ≤ stepTag b)
      (runAssertions d dg f tc resp) := by
  have c5 := seq_pairwise 5 5 6 (by omega) (by omega)
    (tag_bounds (stepJSON_tag d f tc resp) (by omega) (by omega))
    (pairwise_of_const_tag (stepJSON_tag d f tc resp))
    (tag_bounds (stepCapture_tag dg tc resp) (by omega) (by omega))
    (pairwise_of_const_tag (stepCapture_tag dg tc resp))
  have c4 := seq_pairwise 4 4 6 (by omega) (by omega)
    (tag_bounds (stepRaw_tag tc resp) (by omega) (by omega))
    (pairwise_of_const_tag (stepRaw_tag tc resp)) (bounds_mono c5.1 (by omega)) c5.2
  have c3 := seq_pairwise 3 3 6 (by omega) (by omega)
    (tag_bounds (stepHeaders_tag tc.method tc.path tc.fatalFailure resp
      tc.expectHeaders) (by omega) (by omega))
    (pairwise_of_const_tag (stepHeaders_tag tc.method tc.path tc.fatalFailure
      resp tc.expectHeaders)) (bounds_mono c4.1 (by omega)) c4.2
  have c2 := seq_pairwise 2 2 6 (by omega) (by omega)
    (tag_bounds (stepStatus_tag tc resp) (by omega) (by omega))
    (pairwise_of_const_tag (stepStatus_tag tc resp)) (bounds_mono c3.1 (by omega)) c3.2
  have c1 := seq_pairwise 1 1 6 (by omega) (by omega)
    (tag_bounds (stepLog_tag resp) (by omega) (by omega))
    (pairwise_of_const_tag (stepLog_tag resp)) (bounds_mono c2.1 (by omega)) c2.2
  have c0 := seq_pairwise 0 0 6 (by omega) (by omega)
    (tag_bounds (stepRead_tag resp) (by omega) (by omega))
    (pairwise_of_const_tag (stepRead_tag resp)) (bounds_mono c1.1 (by omega)) c1.2
  exact c0.2

/-- Without fail-fast, the header loop reports through `t.Errorf` and never
ends the test function. -/
theorem stepHeaders_ok (m p : String) (resp : Response)
    (hs : List (String × String)) :
    ∃ e, stepHeaders m p false resp hs = .ok e := by
  induction hs with
  | nil => exact ⟨[], rfl⟩
  | cons kv rest ih =>
    obtain ⟨e, he⟩ := ih
    unfold stepHeaders
    split
    · rw [if_neg (by simp), he]
      exact ⟨_, rfl⟩
    · exact ⟨e, he⟩

theorem stepStatus_ok {α : Type} (tc : testCase α) (resp : Response)
    (hff : tc.fatalFailure = false) : ∃ e, stepStatus tc resp = .ok e := by
  unfold stepStatus
  rw [hff]
  split
  · exact ⟨_, failStep_false _⟩
  · exact ⟨[], rfl⟩

theorem stepRaw_ok {α : Type} (tc : testCase α) (resp : Response)
    (hff : tc.fatalFailure = false) : ∃ e, stepRaw tc resp = .ok e := by
  unfold stepRaw
  rw [hff]
  split
  · exact ⟨[], rfl⟩
  · split
    · exact ⟨_, failStep_false _⟩
    · exact ⟨[], rfl⟩

theorem stepJSON_ok {α : Type} (d : String → Except String α)
    (f : α → α → String) (tc : testCase α) (resp : Response)
    (hff : tc.fatalFailure = false)
    (hd : ∀ j, tc.expectJSON = some j → ∃ v, d resp.body = Except.ok v) :
    ∃ e, stepJSON d f tc resp = .ok e := by
  unfold stepJSON
  split
  · exact ⟨[], rfl⟩
  · next want heq =>
    obtain ⟨v, hv⟩ := hd want heq
    split
    · next e he =>
      rw [hv] at he
      cases he
    · next out hout =>
      rw [hff]
      split
      · exact ⟨_, failStep_false _⟩
      · exact ⟨[], rfl⟩

/-- The run when the status assertion halts via `t.Fatalf`: the read report
and the body dump precede it; nothing follows. -/
theorem run_eq_halt_status {α γ : Type} {d : String → Except String α}
    {dg : String → Except String γ} {f : α → α → String}
    {tc : testCase α} {resp : Response} {ev : Event}
    (hc : stepStatus tc resp = .halt [ev]) :
    runAssertions d dg f tc resp =
      (if resp.readErr then [Event.errorReadBody] else []) ++
        [Event.logRaw resp.body, ev] := by
  unfold runAssertions
  rw [hc]
  rw [show ∀ x, seqStep (StepRes.halt [ev]) x = StepRes.halt [ev] from fun _ => rfl]
  unfold stepRead stepLog
  rw [show ∀ l, seqStep (StepRes.ok [Event.logRaw resp.body]) (StepRes.halt l)
      = StepRes.halt (Event.logRaw resp.body :: l) from fun _ => rfl]
  cases hre : resp.readErr <;> simp [seqStep, StepRes.evs]

/-- The run when the first four assertion steps end in `ok`: the event list is
the concatenation of all step blocks. -/
theorem run_evs_ok {α γ : Type} {d : String → Except String α}
    {dg : String → Except String γ} {f : α → α → String}
    {tc : testCase α} {resp : Response}
    {c h r j : List Event} {cap : StepRes}
    (hc : stepStatus tc resp = .ok c)
    (hh : stepHeaders tc.method tc.path tc.fatalFailure resp tc.expectHeaders = .ok h)
    (hr : stepRaw tc resp = .ok r)
    (hj : stepJSON d f tc resp = .ok j)
    (hcap : stepCapture dg tc resp = cap) :
    runAssertions d dg f tc resp =
      (if resp.readErr then [Event.errorReadBody] else []) ++
        Event.logRaw resp.body :: (c ++ (h ++ (r ++ (j ++ cap.evs)))) := by
  unfold runAssertions
  rw [hc, hh, hr, hj, hcap]
  unfold stepRead stepLog
  cases cap <;> cases hre : resp.readErr <;> simp [seqStep, StepRes.evs]

/-- A passing status assertion (unset code, or matching code) emits nothing
and continues. -/
theorem stepStatus_pass {α : Type} (tc : testCase α) (resp : Response)
    (h : tc.expectCode = 0 ∨ resp.statusCode = tc.expectCode) :
    stepStatus tc resp = .ok [] := by
  have hcond : (tc.expectCode != 0 && resp.statusCode != tc.expectCode) = false := by
    rcases h with h | h <;> simp [h]
  simp [stepStatus, hcond]

/-- A header loop whose expectations all match emits nothing and continues,
for either failure policy. -/
theorem stepHeaders_pass (m p : String) (fatal : Bool) (resp : Response)
    (hs : List (String × String))
    (h : ∀ q ∈ hs, headerGet resp.headers q.1 = q.2) :
    stepHeaders m p fatal resp hs = .ok [] := by
  induction hs with
  | nil => rfl
  | cons q rest ih =>
    obtain ⟨k, v⟩ := q
    have hq : headerGet resp.headers k = v := h (k, v) (List.mem_cons_self _ _)
    unfold stepHeaders
    rw [if_neg (by simp [hq])]
    exact ih fun q hq2 => h q (List.mem_cons_of_mem _ hq2)

/-- Under fail-fast, the header loop halts at its first mismatching entry,
recording exactly that failure (and skipping the dump log). -/
theorem stepHeaders_halt_first (m p : String) (resp : Response) :
    ∀ (hs1 : List (String × String)) (k v : String) (hs2 : List (String × String)),
    (∀ q ∈ hs1, headerGet resp.headers q.1 = q.2) →
    headerGet resp.headers k ≠ v →
    stepHeaders m p true resp (hs1 ++ (k, v) :: hs2)
      = .halt [Event.failHeader (headerMsg m p k v (headerGet resp.headers k))] := by
  intro hs1
  induction hs1 with
  | nil =>
    intro k v hs2 _ hne
    rw [List.nil_append]
    unfold stepHeaders
    rw [if_pos (by simp [hne])]
    rfl
  | cons q rest ih =>
    intro k v hs2 hmatch hne
    obtain ⟨k1, v1⟩ := q
    have hq : headerGet resp.headers k1 = v1 := hmatch (k1, v1) (List.mem_cons_self _ _)
    rw [List.cons_append]
    unfold stepHeaders
    rw [if_neg (by simp [hq])]
    exact ih k v hs2 (fun q hq2 => hmatch q (List.mem_cons_of_mem _ hq2)) hne

/-- Without fail-fast, every mismatching header expectation gets its failure
recorded in the header step's events. -/
theorem stepHeaders_mem_mismatch (m p : String) (resp : Response) :
    ∀ (hs : List (String × String)) (k v : String),
    (k, v) ∈ hs → headerGet resp.headers k ≠ v →
    Event.failHeader (headerMsg m p k v (headerGet resp.headers k))
      ∈ (stepHeaders m p false resp hs).evs := by
  intro hs
  induction hs with
  | nil =>
    intro k v hmem
    cases hmem
  | cons q rest ih =>
    intro k v hmem hne
    obtain ⟨k1, v1⟩ := q
    unfold stepHeaders
    by_cases hq : headerGet resp.headers k1 = v1
    · rw [if_neg (by simp [hq])]
      rcases List.mem_cons.mp hmem with heq | hmem2
      · obtain ⟨h1, h2⟩ := Prod.mk.injEq .. ▸ heq
        exact absurd (h1 ▸ h2 ▸ hq) hne
      · exact ih k v hmem2 hne
    · rw [if_pos (by simp [hq]), if_neg (by simp)]
      obtain ⟨e, he⟩ := stepHeaders_ok m p resp rest
      rw [he, seq_ok_evs]
      rcases List.mem_cons.mp hmem with heq | hmem2
      · obtain ⟨h1, h2⟩ := Prod.mk.injEq .. ▸ heq
        subst h1
        subst h2
        simp [StepRes.evs]
      · have hm2 := ih k v hmem2 hne
        rw [he] at hm2
        exact List.mem_append_right _ hm2

/-- Under fail-fast, a raw-body mismatch halts, recording exactly that
failure. -/
theorem stepRaw_halt {α : Type} (tc : testCase α) (resp : Response)
    (hff : tc.fatalFailure = true) (w : String) (hw : tc.expectRaw = some w)
    (hne : w ≠ resp.body) :
    stepRaw tc resp
      = .halt [Event.failRaw (rawMsg tc.method tc.path w resp.body)] := by
  unfold stepRaw
  split
  · next heq =>
    rw [hw] at heq
    cases heq
  · next w1 heq =>
    rw [hw] at heq
    injection heq with h1
    subst h1
    rw [if_pos (by simp [hne]), hff]
    exact failStep_true _

/-- Without fail-fast, a raw-body mismatch is reported and the run
continues. -/
theorem stepRaw_reported {α : Type} (tc : testCase α) (resp : Response)
    (hff : tc.fatalFailure = false) (w : String) (hw : tc.expectRaw = some w)
    (hne : w ≠ resp.body) :
    stepRaw tc resp
      = .ok [Event.failRaw (rawMsg tc.method tc.path w resp.body)] := by
  unfold stepRaw
  split
  · next heq =>
    rw [hw] at heq
    cases heq
  · next w1 heq =>
    rw [hw] at heq
    injection heq with h1
    subst h1
    rw [if_pos (by simp [hne]), hff]
    exact failStep_false _

/-- A passing raw-body assertion (unset, or matching) emits nothing and
continues. -/
theorem stepRaw_pass {α : Type} (tc : testCase α) (resp : Response)
    (h : ∀ w, tc.expectRaw = some w → w = resp.body) :
    stepRaw tc resp = .ok [] := by
  unfold stepRaw
  split
  · rfl
  · next w1 heq =>
    rw [if_neg (by simp [h w1 heq])]

/-- Under fail-fast, a non-empty structured diff halts, recording exactly
that failure. -/
theorem stepJSON_halt_diff {α : Type} (d : String → Except String α)
    (f : α → α → String) (tc : testCase α) (resp : Response)
    (hff : tc.fatalFailure = true) (j out : α) (hj : tc.expectJSON = some j)
    (hd : d resp.body = Except.ok out) (hf : f j out ≠ "") :
    stepJSON d f tc resp
      = .halt [Event.failDiff (diffMsg tc.method tc.path (f j out))] := by
  unfold stepJSON
  split
  · next heq =>
    rw [hj] at heq
    cases heq
  · next j1 heq =>
    rw [hj] at heq
    injection heq with h1
    subst h1
    split
    · next e he =>
      rw [hd] at he
      cases he
    · next out1 ho =>
      rw [hd] at ho
      injection ho with h2
      subst h2
      rw [if_pos (by simp [hf]), hff]
      exact failStep_true _

/-- Without fail-fast, a non-empty structured diff is reported and the run
continues. -/
theorem stepJSON_reported {α : Type} (d : String → Except String α)
    (f : α → α → String) (tc : testCase α) (resp : Response)
    (hff : tc.fatalFailure = false) (j out : α) (hj : tc.expectJSON = some j)
    (hd : d resp.body = Except.ok out) (hf : f j out ≠ "") :
    stepJSON d f tc resp
      = .ok [Event.failDiff (diffMsg tc.method tc.path (f j out))] := by
  unfold stepJSON
  split
  · next heq =>
    rw [hj] at heq
    cases heq
  · next j1 heq =>
    rw [hj] at heq
    injection heq with h1
    subst h1
    split
    · next e he =>
      rw [hd] at he
      cases he
    · next out1 ho =>
      rw [hd] at ho
      injection ho with h2
      subst h2
      rw [if_pos (by simp [hf]), hff]
      exact failStep_false _

/-- The run when the status step passed and the header step halted: the
halting header failure is recorded last; nothing follows. -/
theorem run_eq_halt_header {α γ : Type} {d : String → Except String α}
    {dg : String → Except String γ} {f : α → α → String}
    {tc : testCase α} {resp : Response} {ev : Event}
    (hst : stepStatus tc resp = .ok [])
    (hh : stepHeaders tc.method tc.path tc.fatalFailure resp tc.expectHeaders
      = .halt [ev]) :
    runAssertions d dg f tc resp =
      (if resp.readErr then [Event.errorReadBody] else []) ++
        [Event.logRaw resp.body, ev] := by
  unfold runAssertions
  rw [hst, hh]
  unfold stepRead stepLog
  cases hre : resp.readErr <;> simp [seqStep, StepRes.evs]

/-- The run when status and headers passed and the raw step halted. -/
theorem run_eq_halt_raw {α γ : Type} {d : String → Except String α}
    {dg : String → Except String γ} {f : α → α → String}
    {tc : testCase α} {resp : Response} {ev : Event}
    (hst : stepStatus tc resp = .ok [])
    (hh : stepHeaders tc.method tc.path tc.fatalFailure resp tc.expectHeaders
      = .ok [])
    (hr : stepRaw tc resp = .halt [ev]) :
    runAssertions d dg f tc resp =
      (if resp.readErr then [Event.errorReadBody] else []) ++
        [Event.logRaw resp.body, ev] := by
  unfold runAssertions
  rw [hst, hh, hr]
  unfold stepRead stepLog
  cases hre : resp.readErr <;> simp [seqStep, StepRes.evs]

/-- The run when status, headers and raw body passed and the structured step
halted. -/
theorem run_eq_halt_json {α γ : Type} {d : String → Except String α}
    {dg : String → Except String γ} {f : α → α → String}
    {tc : testCase α} {resp : Response} {ev : Event}
    (hst : stepStatus tc resp = .ok [])
    (hh : stepHeaders tc.method tc.path tc.fatalFailure resp tc.expectHeaders
      = .ok [])
    (hr : stepRaw tc resp = .ok [])
    (hj : stepJSON d f tc resp = .halt [ev]) :
    runAssertions d dg f tc resp =
      (if resp.readErr then [Event.errorReadBody] else []) ++
        [Event.logRaw resp.body, ev] := by
  unfold runAssertions
  rw [hst, hh, hr, hj]
  unfold stepRead stepLog
  cases hre : resp.readErr <;> simp [seqStep, StepRes.evs]

/-- Status-step events always make it into the run (nothing before them can
halt). -/
theorem mem_run_of_status {α γ : Type} {d : String → Except String α}
    {dg : String → Except String γ} {f : α → α → String}
    {tc : testCase α} {resp : Response} {x : Event}
    (h : x ∈ (stepStatus tc resp).evs) : x ∈ runAssertions d dg f tc resp := by
  unfold runAssertions
  exact mem_seq_right (show stepRead resp
      = StepRes.ok (if resp.readErr then [Event.errorReadBody] else []) from rfl)
    (mem_seq_right (show stepLog resp = StepRes.ok [Event.logRaw resp.body] from rfl)
      (mem_seq_left _ h))

/-- Header-step events make it into the run when the status step did not
halt. -/
theorem mem_run_of_headers {α γ : Type} {d : String → Except String α}
    {dg : String → Except String γ} {f : α → α → String}
    {tc : testCase α} {resp : Response} {x : Event} {ec : List Event}
    (hst : stepStatus tc resp = .ok ec)
    (h : x ∈ (stepHeaders tc.method tc.path tc.fatalFailure resp
      tc.expectHeaders).evs) : x ∈ runAssertions d dg f tc resp := by
  unfold runAssertions
  exact mem_seq_right (show stepRead resp
      = StepRes.ok (if resp.readErr then [Event.errorReadBody] else []) from rfl)
    (mem_seq_right (show stepLog resp = StepRes.ok [Event.logRaw resp.body] from rfl)
      (mem_seq_right hst (mem_seq_left _ h)))

/-- Raw-step events make it into the run when the status and header steps did
not halt. -/
theorem mem_run_of_raw {α γ : Type} {d : String → Except String α}
    {dg : String → Except String γ} {f : α → α → String}
    {tc : testCase α} {resp : Response} {x : Event} {ec eh : List Event}
    (hst : stepStatus tc resp = .ok ec)
    (hh : stepHeaders tc.method tc.path tc.fatalFailure resp tc.expectHeaders
      = .ok eh)
    (h : x ∈ (stepRaw tc resp).evs) : x ∈ runAssertions d dg f tc resp := by
  unfold runAssertions
  exact mem_seq_right (show stepRead resp
      = StepRes.ok (if resp.readErr then [Event.errorReadBody] else []) from rfl)
    (mem_seq_right (show stepLog resp = StepRes.ok [Event.logRaw resp.body] from rfl)
      (mem_seq_right hst (mem_seq_right hh (mem_seq_left _ h))))

/-- Structured-step events make it into the run when the status, header and
raw steps did not halt. -/
theorem mem_run_of_json {α γ : Type} {d : String → Except String α}
    {dg : String → Except String γ} {f : α → α → String}
    {tc : testCase α} {resp : Response} {x : Event} {ec eh er : List Event}
    (hst : stepStatus tc resp = .ok ec)
    (hh : stepHeaders tc.method tc.path tc.fatalFailure resp tc.expectHeaders
      = .ok eh)
    (hr : stepRaw tc resp = .ok er)
    (h : x ∈ (stepJSON d f tc resp).evs) : x ∈ runAssertions d dg f tc resp := by
  unfold runAssertions
  exact mem_seq_right (show stepRead resp
      = StepRes.ok (if resp.readErr then [Event.errorReadBody] else []) from rfl)
    (mem_seq_right (show stepLog resp = StepRes.ok [Event.logRaw resp.body] from rfl)
      (mem_seq_right hst (mem_seq_right hh (mem_seq_right hr (mem_seq_left _ h)))))

/-! ### Skip-condition lemmas: an unset specification field produces no
events of its assertion step -/

theorem no_failStatus_of_expectCode_zero {α γ : Type}
    {d : String → Except String α} {dg : String → Except String γ}
    {f : α → α → String} {tc : testCase α} {resp : Response}
    (h0 : tc.expectCode = 0) (msg : String) :
    Event.failStatus msg ∉ runAssertions d dg f tc resp := by
  intro hm
  rcases mem_run hm with h | h | h | h | h | h | h
  · exact absurd (mem_stepRead h) (by simp)
  · exact absurd (mem_stepLog h) (by simp)
  · exact (mem_stepStatus h).2 h0
  · rcases mem_stepHeaders h with ⟨s, hs⟩ | hs <;> simp at hs
  · rcases (mem_stepRaw h).1 with ⟨s, hs⟩
    simp at hs
  · rcases (mem_stepJSON h).1 with ⟨s, hs⟩ | ⟨s, hs⟩ <;> simp at hs
  · rcases (mem_stepCapture h).1 with hs | ⟨s, hs⟩ <;> simp at hs

theorem no_failHeader_of_no_expectHeaders {α γ : Type}
    {d : String → Except String α} {dg : String → Except String γ}
    {f : α → α → String} {tc : testCase α} {resp : Response}
    (h0 : tc.expectHeaders = []) (msg : String) :
    Event.failHeader msg ∉ runAssertions d dg f tc resp := by
  intro hm
  rcases mem_run hm with h | h | h | h | h | h | h
  · exact absurd (mem_stepRead h) (by simp)
  · exact absurd (mem_stepLog h) (by simp)
  · rcases (mem_stepStatus h).1 with ⟨s, hs⟩
    simp at hs
  · rw [h0] at h
    simp [stepHeaders, StepRes.evs] at h
  · rcases (mem_stepRaw h).1 with ⟨s, hs⟩
    simp at hs
  · rcases (mem_stepJSON h).1 with ⟨s, hs⟩ | ⟨s, hs⟩ <;> simp at hs
  · rcases (mem_stepCapture h).1 with hs | ⟨s, hs⟩ <;> simp at hs

theorem no_failRaw_of_expectRaw_none {α γ : Type}
    {d : String → Except String α} {dg : String → Except String γ}
    {f : α → α → String} {tc : testCase α} {resp : Response}
    (h0 : tc.expectRaw = none) (msg : String) :
    Event.failRaw msg ∉ runAssertions d dg f tc resp := by
  intro hm
  rcases mem_run hm with h | h | h | h | h | h | h
  · exact absurd (mem_stepRead h) (by simp)
  · exact absurd (mem_stepLog h) (by simp)
  · rcases (mem_stepStatus h).1 with ⟨s, hs⟩
    simp at hs
  · rcases mem_stepHeaders h with ⟨s, hs⟩ | hs <;> simp at hs
  · exact (mem_stepRaw h).2 h0
  · rcases (mem_stepJSON h).1 with ⟨s, hs⟩ | ⟨s, hs⟩ <;> simp at hs
  · rcases (mem_stepCapture h).1 with hs | ⟨s, hs⟩ <;> simp at hs

theorem no_structured_events_of_expectJSON_none {α γ : Type}
    {d : String → Except String α} {dg : String → Except String γ}
    {f : α → α → String} {tc : testCase α} {resp : Response}
    (h0 : tc.expectJSON = none) (msg : String) :
    Event.failDiff msg ∉ runAssertions d dg f tc resp
    ∧ Event.fatalDecode msg ∉ runAssertions d dg f tc resp := by
  constructor <;> intro hm <;> rcases mem_run hm with h | h | h | h | h | h | h
  · exact absurd (mem_stepRead h) (by simp)
  · exact absurd (mem_stepLog h) (by simp)
  · rcases (mem_stepStatus h).1 with ⟨s, hs⟩
    simp at hs
  · rcases mem_stepHeaders h with ⟨s, hs⟩ | hs <;> simp at hs
  · rcases (mem_stepRaw h).1 with ⟨s, hs⟩
    simp at hs
  · exact (mem_stepJSON h).2 h0
  · rcases (mem_stepCapture h).1 with hs | ⟨s, hs⟩ <;> simp at hs
  · exact absurd (mem_stepRead h) (by simp)
  · exact absurd (mem_stepLog h) (by simp)
  · rcases (mem_stepStatus h).1 with ⟨s, hs⟩
    simp at hs
  · rcases mem_stepHeaders h with ⟨s, hs⟩ | hs <;> simp at hs
  · rcases (mem_stepRaw h).1 with ⟨s, hs⟩
    simp at hs
  · exact (mem_stepJSON h).2 h0
  · rcases (mem_stepCapture h).1 with hs | ⟨s, hs⟩ <;> simp at hs

theorem no_capture_events_of_not_grabOutput {α γ : Type}
    {d : String → Except String α} {dg : String → Except String γ}
    {f : α → α → String} {tc : testCase α} {resp : Response}
    (h0 : tc.grabOutput = false) (msg : String) :
    Event.captured ∉ runAssertions d dg f tc resp
    ∧ Event.fatalCaptureDecode msg ∉ runAssertions d dg f tc resp := by
  constructor <;> intro hm <;> rcases mem_run hm with h | h | h | h | h | h | h
  · exact absurd (mem_stepRead h) (by simp)
  · exact absurd (mem_stepLog h) (by simp)
  · rcases (mem_stepStatus h).1 with ⟨s, hs⟩
    simp at hs
  · rcases mem_stepHeaders h with ⟨s, hs⟩ | hs <;> simp at hs
  · rcases (mem_stepRaw h).1 with ⟨s, hs⟩
    simp at hs
  · rcases (mem_stepJSON h).1 with ⟨s, hs⟩ | ⟨s, hs⟩ <;> simp at hs
  · rw [(mem_stepCapture h).2] at h0
    cases h0
  · exact absurd (mem_stepRead h) (by simp)
  · exact absurd (mem_stepLog h) (by simp)
  · rcases (mem_stepStatus h).1 with ⟨s, hs⟩
    simp at hs
  · rcases mem_stepHeaders h with ⟨s, hs⟩ | hs <;> simp at hs
  · rcases (mem_stepRaw h).1 with ⟨s, hs⟩
    simp at hs
  · rcases (mem_stepJSON h).1 with ⟨s, hs⟩ | ⟨s, hs⟩ <;> simp at hs
  · rw [(mem_stepCapture h).2] at h0
    cases h0

/-- A middle factor of a string concatenation is an infix of its character
list. -/
theorem str_infix (a s b : String) : s.toList <:+: (a ++ s ++ b).toList :=
  ⟨a.toList, b.toList, by simp [String.toList, String.data_append]⟩

/-- Every run starts with the read-error report (when the read failed)
followed by the unconditional raw-body dump; all assertion events come
after. -/
theorem run_prefix {α γ : Type} (d : String → Except String α)
    (dg : String → Except String γ) (f : α → α → String)
    (tc : testCase α) (resp : Response) :
    ∃ rest, runAssertions d dg f tc resp
      = (if resp.readErr then [Event.errorReadBody] else []) ++
          Event.logRaw resp.body :: rest := by
  refine ⟨(seqStep (stepStatus tc resp)
      (seqStep (stepHeaders tc.method tc.path tc.fatalFailure resp tc.expectHeaders)
        (seqStep (stepRaw tc resp)
          (seqStep (stepJSON d f tc resp) (stepCapture dg tc resp))))).evs, ?_⟩
  unfold runAssertions
  rw [show stepRead resp
        = StepRes.ok (if resp.readErr then [Event.errorReadBody] else []) from rfl,
      show stepLog resp = StepRes.ok [Event.logRaw resp.body] from rfl,
      seq_ok_evs, seq_ok_evs]
  simp

/-- Concrete `json.Unmarshal` stand-in that always succeeds (for witnesses). -/
def unitDecode : String → Except String Unit := fun _ => Except.ok ()

/-- Concrete `json.Unmarshal` stand-in that always fails (for witnesses and
counterexamples; malformed response body). -/
def unitDecodeFail : String → Except String Unit := fun _ => Except.error "decode failure"

/-- Concrete `cmp.Diff` stand-in reporting no difference. -/
def unitDiff : Unit → Unit → String := fun _ _ => ""

/-! ### Claim theorems -/

/-- C1 (code evidence): `WithJSONInput` does not serialize its argument.
Applied to a fresh specification with the value `"hi"`, it sets the body to
`"null"` — the JSON marshalling of the specification's still-nil `input`
field — although the JSON serialization of the given value is `"\"hi\""`;
only the queued Content-Type mutator behaves as claimed. -/
theorem withJSONInput_ignores_argument :
    (WithJSONInput (Jval.str "hi") (newTestCase Unit "POST" "/greet")).input
        = some "null"
    ∧ jsonMarshal (Jval.str "hi") = "\"hi\""
    ∧ ("null" : String) ≠ "\"hi\""
    ∧ (applyMutators
        (WithJSONInput (Jval.str "hi") (newTestCase Unit "POST" "/greet")).mutateReq
        emptyRequest).headers "Content-Type" = ["application/json"] := by
  refine ⟨rfl, ?_, by decide, ?_⟩
  · simp [jsonMarshal]
    decide
  · rfl

/-- C6: `WithFormInput` with the single-key multi-value map
`[("name", ["greg"])]` sets the body to the exact percent-encoded string
`name=greg` and queues a mutator that sets Content-Type to
`application/x-www-form-urlencoded`. -/
theorem withFormInput_name_greg :
    (WithFormInput [("name", ["greg"])] (newTestCase Unit "POST" "/greet")).input
        = some "name=greg"
    ∧ (applyMutators
        (WithFormInput [("name", ["greg"])] (newTestCase Unit "POST" "/greet")).mutateReq
        emptyRequest).headers "Content-Type"
        = ["application/x-www-form-urlencoded"] := by
  exact ⟨rfl, rfl⟩

/-- C2 (counterexample): two `WithHeader` options on the same
non-Content-Type header key do not end with only the later value — the built
request carries both values, and `Header.Get` returns the earlier one, so
last-mutator-wins does not hold for every header key. -/
theorem withHeader_not_last_mutator_wins_cex :
    (applyMutators
        (runOpts [WithHeader "X-Foo" "a", WithHeader "X-Foo" "b"]
          (newTestCase Unit "GET" "/")).mutateReq emptyRequest).headers "X-Foo"
        = ["a", "b"]
    ∧ headerGet
        (applyMutators
          (runOpts [WithHeader "X-Foo" "a", WithHeader "X-Foo" "b"]
            (newTestCase Unit "GET" "/")).mutateReq emptyRequest).headers "X-Foo"
        = "a"
    ∧ ("a" : String) ≠ "b" := by
  exact ⟨rfl, rfl, by decide⟩

/-- C2 (amended): last-mutator-wins holds for the Content-Type header, the
one key `WithHeader` sets with replace semantics: whatever mutators were
queued earlier, a final `WithHeader` mutator whose name canonicalizes to
Content-Type leaves exactly its value as the Content-Type of the built
request. -/
theorem contentType_last_set_mutator_wins
    (ms : List (Request → Request)) (n v : String)
    (h : canonicalHeaderKey n = "Content-Type") :
    (applyMutators (ms ++ [withHeaderMutator n v]) emptyRequest).headers
      "Content-Type" = [v] := by
  have happ : ∀ (l : List (Request → Request)) (m : Request → Request)
      (r : Request), applyMutators (l ++ [m]) r = m (applyMutators l r) := by
    intro l
    induction l with
    | nil => intro m r; rfl
    | cons x xs ih => intro m r; exact ih m (x r)
  rw [happ]
  unfold withHeaderMutator
  rw [if_pos (by rw [h]; rfl)]
  show headerSet _ n v "Content-Type" = [v]
  unfold headerSet
  rw [if_pos h.symm]

/-- Witness for C2's amended theorem: a body-encoding option's Content-Type
mutator followed by a later `WithHeader "content-type"` mutator yields the
later value. -/
theorem contentType_last_set_mutator_wins_witness :
    (applyMutators
        ([setContentType "application/json"] ++
          [withHeaderMutator "content-type" "text/plain"]) emptyRequest).headers
      "Content-Type" = ["text/plain"] :=
  contentType_last_set_mutator_wins [setContentType "application/json"]
    "content-type" "text/plain" (by decide)

/-- C9: the mutator queued by `WithHeader` replaces existing values exactly
when the header name canonicalizes to Content-Type; for any other name it
appends, so applying `WithHeader` twice with the same non-Content-Type name
builds a request carrying both supplied values in order. -/
theorem withHeader_replace_only_content_type
    (r : Request) (name v v1 v2 : String) :
    (canonicalHeaderKey name = "Content-Type" →
      (withHeaderMutator name v r).headers "Content-Type" = [v])
    ∧ (canonicalHeaderKey name ≠ "Content-Type" →
      (withHeaderMutator name v r).headers (canonicalHeaderKey name)
          = r.headers (canonicalHeaderKey name) ++ [v]
      ∧ (applyMutators
          (runOpts [WithHeader name v1, WithHeader name v2]
            (newTestCase Unit "GET" "/")).mutateReq emptyRequest).headers
          (canonicalHeaderKey name) = [v1, v2]) := by
  constructor
  · intro h
    unfold withHeaderMutator
    rw [if_pos (by rw [h]; rfl)]
    show headerSet _ name v "Content-Type" = [v]
    unfold headerSet
    rw [if_pos h.symm]
  · intro h
    have hne : (canonicalHeaderKey name == "Content-Type") = false :=
      beq_eq_false_iff_ne.mpr h
    constructor
    · unfold withHeaderMutator
      rw [if_neg (by rw [hne]; exact Bool.false_ne_true)]
      show headerAdd _ name v (canonicalHeaderKey name)
          = r.headers (canonicalHeaderKey name) ++ [v]
      unfold headerAdd
      rw [if_pos rfl]
    · show (withHeaderMutator name v2 (withHeaderMutator name v1 emptyRequest)).headers
          (canonicalHeaderKey name) = [v1, v2]
      unfold withHeaderMutator
      rw [if_neg (by rw [hne]; exact Bool.false_ne_true),
          if_neg (by rw [hne]; exact Bool.false_ne_true)]
      show headerAdd (headerAdd emptyHeaders name v1) name v2
          (canonicalHeaderKey name) = [v1, v2]
      unfold headerAdd
      rw [if_pos rfl, if_pos rfl]
      rfl

/-- C7 (counterexample): at a path targeted by `NotEmpty`, two string values
that both equal the zero value `""` still compare equal — the filter does not
apply and ordinary equality decides — refuting "equal exactly when each
independently differs from its type's zero value". -/
theorem notEmpty_equal_zero_values_cex :
    notEmptyCompare "" "" "" = true
    ∧ ¬(("" : String) ≠ "" ∧ ("" : String) ≠ "") := by
  exact ⟨by decide, by decide⟩

/-- C7 (amended): under `NotEmpty`, two values at the targeted path compare
equal exactly when both differ from the zero value OR they are equal outright;
in particular `"x"` vs `"y"` on a string path passes and `""` vs `"y"`
fails, as claimed. -/
theorem notEmpty_compare_characterization :
    (∀ (α : Type) [DecidableEq α] (zero x y : α),
        notEmptyCompare zero x y = true ↔ ((x ≠ zero ∧ y ≠ zero) ∨ x = y))
    ∧ notEmptyCompare "" "x" "y" = true
    ∧ notEmptyCompare "" "" "y" = false := by
  refine ⟨?_, by decide, by decide⟩
  intro α inst zero x y
  unfold notEmptyCompare notEmptyFilter
  by_cases hx : x = zero <;> by_cases hy : y = zero <;> simp [hx, hy]

/-- Witness for C7's amended theorem at a concrete instance. -/
theorem notEmpty_compare_characterization_witness :
    notEmptyCompare "" "a" "b" = true :=
  (notEmpty_compare_characterization.1 String "" "a" "b").mpr (by decide)

/-- C8: a zero expected status disables the status assertion entirely; a
non-zero expected status that differs from the response's produces exactly one
reported failure, whose message names the method, the path, the expected code
and the actual code. -/
theorem expectStatusCode_assertion {α γ : Type}
    (d : String → Except String α) (dg : String → Except String γ)
    (f : α → α → String) (m p : String) (want got : Nat)
    (hdrs : Headers) (body : String) :
    (want = 0 → ∀ msg, Event.failStatus msg ∉
        runAssertions d dg f (ExpectStatusCode want (newTestCase α m p))
          ⟨got, hdrs, body, false⟩)
    ∧ (want ≠ 0 → got ≠ want →
        runAssertions d dg f (ExpectStatusCode want (newTestCase α m p))
            ⟨got, hdrs, body, false⟩
          = [Event.logRaw body, Event.failStatus (statusMsg m p want got)]
        ∧ m.toList <:+: (statusMsg m p want got).toList
        ∧ p.toList <:+: (statusMsg m p want got).toList
        ∧ (Nat.repr want).toList <:+: (statusMsg m p want got).toList
        ∧ (Nat.repr got).toList <:+: (statusMsg m p want got).toList) := by
  constructor
  · intro h0 msg
    exact no_failStatus_of_expectCode_zero h0 msg
  · intro hw hg
    constructor
    · have hst : stepStatus (ExpectStatusCode want (newTestCase α m p))
          (⟨got, hdrs, body, false⟩ : Response)
          = .ok [Event.failStatus (statusMsg m p want got)] := by
        unfold stepStatus
        rw [if_pos (by simp [ExpectStatusCode, newTestCase, hw, hg])]
        exact failStep_false _
      have t1 : stepHeaders m p false (⟨got, hdrs, body, false⟩ : Response) []
          = StepRes.ok [] := rfl
      have t2 : stepRaw (ExpectStatusCode want (newTestCase α m p))
          (⟨got, hdrs, body, false⟩ : Response) = StepRes.ok [] := rfl
      have t3 : stepJSON d f (ExpectStatusCode want (newTestCase α m p))
          (⟨got, hdrs, body, false⟩ : Response) = StepRes.ok [] := rfl
      have t4 : stepCapture dg (ExpectStatusCode want (newTestCase α m p))
          (⟨got, hdrs, body, false⟩ : Response) = StepRes.ok [] := rfl
      have hrun := run_evs_ok hst t1 t2 t3 t4
      simpa using hrun
    · refine ⟨?_, ?_, ?_, ?_⟩
      · have := str_infix "[" m
          (" " ++ p ++ "] unexpected response code: want " ++ Nat.repr want ++
            ", got " ++ Nat.repr got)
        simpa [statusMsg, String.toList, String.data_append] using this
      · have := str_infix ("[" ++ m ++ " ") p
          ("] unexpected response code: want " ++ Nat.repr want ++ ", got " ++
            Nat.repr got)
        simpa [statusMsg, String.toList, String.data_append] using this
      · have := str_infix ("[" ++ m ++ " " ++ p ++ "] unexpected response code: want ")
          (Nat.repr want) (", got " ++ Nat.repr got)
        simpa [statusMsg, String.toList, String.data_append] using this
      · have := str_infix ("[" ++ m ++ " " ++ p ++ "] unexpected response code: want "
            ++ Nat.repr want ++ ", got ") (Nat.repr got) ""
        simpa [statusMsg, String.toList, String.data_append] using this

/-- Witness for C8: both branches at concrete inputs. -/
theorem expectStatusCode_assertion_witness :
    Event.failStatus "x" ∉
      runAssertions (fun _ => (Except.error "" : Except String Unit))
        (fun _ => (Except.error "" : Except String Unit)) (fun (_ _ : Unit) => "")
        (ExpectStatusCode 0 (newTestCase Unit "GET" "/greet"))
        ⟨405, emptyHeaders, "hi", false⟩
    ∧ runAssertions (fun _ => (Except.error "" : Except String Unit))
        (fun _ => (Except.error "" : Except String Unit)) (fun (_ _ : Unit) => "")
        (ExpectStatusCode 200 (newTestCase Unit "GET" "/greet"))
        ⟨405, emptyHeaders, "hi", false⟩
      = [Event.logRaw "hi", Event.failStatus (statusMsg "GET" "/greet" 200 405)] :=
  ⟨(expectStatusCode_assertion (fun _ => (Except.error "" : Except String Unit))
      (fun _ => (Except.error "" : Except String Unit)) (fun (_ _ : Unit) => "")
      "GET" "/greet" 0 405 emptyHeaders "hi").1 rfl "x",
   ((expectStatusCode_assertion (fun _ => (Except.error "" : Except String Unit))
      (fun _ => (Except.error "" : Except String Unit)) (fun (_ _ : Unit) => "")
      "GET" "/greet" 200 405 emptyHeaders "hi").2 (by decide) (by decide)).1⟩

/-- C10: `ExpectRawResponse` with a nil byte slice leaves the raw-body
assertion disabled — the executor reports no raw-body failure on any
response — while a non-nil empty slice asserts an empty body: the run
reports a raw-body mismatch exactly when the body is non-empty. -/
theorem expectRawResponse_nil_vs_empty {α γ : Type}
    (d : String → Except String α) (dg : String → Except String γ)
    (f : α → α → String) (m p body : String) (st : Nat) (hdrs : Headers) :
    (∀ msg, Event.failRaw msg ∉
        runAssertions d dg f (ExpectRawResponse none (newTestCase α m p))
          ⟨st, hdrs, body, false⟩)
    ∧ runAssertions d dg f (ExpectRawResponse (some "") (newTestCase α m p))
          ⟨st, hdrs, body, false⟩
        = if body = "" then [Event.logRaw body]
          else [Event.logRaw body, Event.failRaw (rawMsg m p "" body)] := by
  constructor
  · intro msg
    exact no_failRaw_of_expectRaw_none rfl msg
  · by_cases hb : body = ""
    · have hraw : stepRaw (ExpectRawResponse (some "") (newTestCase α m p))
          (⟨st, hdrs, body, false⟩ : Response) = .ok [] := by
        show (if (("" != body) = true) then
            failStep false (Event.failRaw (rawMsg m p "" body))
          else StepRes.ok []) = StepRes.ok []
        rw [if_neg (by simp [hb])]
      have t0 : stepStatus (ExpectRawResponse (some "") (newTestCase α m p))
          (⟨st, hdrs, body, false⟩ : Response) = StepRes.ok [] := rfl
      have t1 : stepHeaders m p false (⟨st, hdrs, body, false⟩ : Response) []
          = StepRes.ok [] := rfl
      have t3 : stepJSON d f (ExpectRawResponse (some "") (newTestCase α m p))
          (⟨st, hdrs, body, false⟩ : Response) = StepRes.ok [] := rfl
      have t4 : stepCapture dg (ExpectRawResponse (some "") (newTestCase α m p))
          (⟨st, hdrs, body, false⟩ : Response) = StepRes.ok [] := rfl
      have hrun := run_evs_ok t0 t1 hraw t3 t4
      simpa [hb] using hrun
    · have hraw : stepRaw (ExpectRawResponse (some "") (newTestCase α m p))
          (⟨st, hdrs, body, false⟩ : Response)
          = .ok [Event.failRaw (rawMsg m p "" body)] := by
        show (if (("" != body) = true) then
            failStep false (Event.failRaw (rawMsg m p "" body))
          else StepRes.ok []) = StepRes.ok [Event.failRaw (rawMsg m p "" body)]
        rw [if_pos (by simp [bne_iff_ne]; exact fun hx => hb hx.symm)]
        rfl
      have t0 : stepStatus (ExpectRawResponse (some "") (newTestCase α m p))
          (⟨st, hdrs, body, false⟩ : Response) = StepRes.ok [] := rfl
      have t1 : stepHeaders m p false (⟨st, hdrs, body, false⟩ : Response) []
          = StepRes.ok [] := rfl
      have t3 : stepJSON d f (ExpectRawResponse (some "") (newTestCase α m p))
          (⟨st, hdrs, body, false⟩ : Response) = StepRes.ok [] := rfl
      have t4 : stepCapture dg (ExpectRawResponse (some "") (newTestCase α m p))
          (⟨st, hdrs, body, false⟩ : Response) = StepRes.ok [] := rfl
      have hrun := run_evs_ok t0 t1 hraw t3 t4
      simpa [hb] using hrun

/-- Witness for C10: the non-nil empty expectation failing on a non-empty
body. -/
theorem expectRawResponse_nil_vs_empty_witness :
    runAssertions unitDecode unitDecode unitDiff
        (ExpectRawResponse (some "") (newTestCase Unit "GET" "/w"))
        ⟨200, emptyHeaders, "x", false⟩
      = [Event.logRaw "x", Event.failRaw (rawMsg "GET" "/w" "" "x")] := by
  have h := (expectRawResponse_nil_vs_empty unitDecode unitDecode unitDiff
      "GET" "/w" "x" 200 emptyHeaders).2
  simpa using h

/-- Witness for C9: replace for `content-type`, append for `X-Foo`. -/
theorem withHeader_replace_only_content_type_witness :
    (withHeaderMutator "content-type" "text/css" emptyRequest).headers
        "Content-Type" = ["text/css"]
    ∧ (applyMutators
        (runOpts [WithHeader "X-Foo" "a", WithHeader "X-Foo" "b"]
          (newTestCase Unit "GET" "/")).mutateReq emptyRequest).headers
        (canonicalHeaderKey "X-Foo") = ["a", "b"] :=
  ⟨(withHeader_replace_only_content_type emptyRequest "content-type"
      "text/css" "x" "y").1 (by decide),
   ((withHeader_replace_only_content_type emptyRequest "X-Foo"
      "z" "a" "b").2 (by decide)).2⟩

/-- C3 (counterexample): with the fail-fast flag set, a response-body read
error does not abort the remaining assertions — it is reported with
`t.Error`, the dump still runs, and the status assertion still runs and
reports afterwards. -/
theorem failfast_read_error_not_aborting_cex :
    runAssertions unitDecodeFail unitDecodeFail unitDiff
        (runOpts [ExpectStatusCode 200, FatalFailure] (newTestCase Unit "GET" "/x"))
        ⟨405, emptyHeaders, "", true⟩
      = [Event.errorReadBody, Event.logRaw "",
         Event.failStatus (statusMsg "GET" "/x" 200 405)]
    ∧ (runOpts [ExpectStatusCode 200, FatalFailure]
        (newTestCase Unit "GET" "/x")).fatalFailure = true := by
  exact ⟨rfl, rfl⟩

/-- C3 (amended): with the fail-fast flag set, each reported assertion
outcome — status mismatch, header mismatch, raw-body mismatch, non-empty
structured diff — aborts the remaining assertions at the point it fires while
still recording the failure (the run ends exactly at that failure event);
with the flag unset each of them is recorded and the run never truncates, so
all subsequent assertion steps still run.  The response-body read error is
always report-and-continue: it is recorded before the unconditional body dump
and never aborts, fail-fast or not. -/
theorem failfast_upgrade_semantics {α γ : Type}
    (d : String → Except String α) (dg : String → Except String γ)
    (f : α → α → String) (tc : testCase α) (resp : Response) :
    ((runAssertions d dg f tc resp).take (if resp.readErr then 2 else 1)
        = (if resp.readErr then [Event.errorReadBody] else []) ++
            [Event.logRaw resp.body])
    ∧ (tc.fatalFailure = true →
        (tc.expectCode ≠ 0 → resp.statusCode ≠ tc.expectCode →
          runAssertions d dg f tc resp
            = (if resp.readErr then [Event.errorReadBody] else []) ++
                [Event.logRaw resp.body,
                 Event.failStatus (statusMsg tc.method tc.path tc.expectCode
                   resp.statusCode)])
        ∧ ((tc.expectCode = 0 ∨ resp.statusCode = tc.expectCode) →
            ∀ (hs1 : List (String × String)) (k v : String)
              (hs2 : List (String × String)),
              tc.expectHeaders = hs1 ++ (k, v) :: hs2 →
              (∀ q ∈ hs1, headerGet resp.headers q.1 = q.2) →
              headerGet resp.headers k ≠ v →
              runAssertions d dg f tc resp
                = (if resp.readErr then [Event.errorReadBody] else []) ++
                    [Event.logRaw resp.body,
                     Event.failHeader (headerMsg tc.method tc.path k v
                       (headerGet resp.headers k))])
        ∧ ((tc.expectCode = 0 ∨ resp.statusCode = tc.expectCode) →
            (∀ q ∈ tc.expectHeaders, headerGet resp.headers q.1 = q.2) →
            ∀ w, tc.expectRaw = some w → w ≠ resp.body →
              runAssertions d dg f tc resp
                = (if resp.readErr then [Event.errorReadBody] else []) ++
                    [Event.logRaw resp.body,
                     Event.failRaw (rawMsg tc.method tc.path w resp.body)])
        ∧ ((tc.expectCode = 0 ∨ resp.statusCode = tc.expectCode) →
            (∀ q ∈ tc.expectHeaders, headerGet resp.headers q.1 = q.2) →
            (∀ w, tc.expectRaw = some w → w = resp.body) →
            ∀ j out, tc.expectJSON = some j → d resp.body = Except.ok out →
              f j out ≠ "" →
              runAssertions d dg f tc resp
                = (if resp.readErr then [Event.errorReadBody] else []) ++
                    [Event.logRaw resp.body,
                     Event.failDiff (diffMsg tc.method tc.path (f j out))]))
    ∧ (tc.fatalFailure = false →
        (tc.expectCode ≠ 0 → resp.statusCode ≠ tc.expectCode →
          Event.failStatus (statusMsg tc.method tc.path tc.expectCode
              resp.statusCode) ∈ runAssertions d dg f tc resp)
        ∧ (∀ k v, (k, v) ∈ tc.expectHeaders → headerGet resp.headers k ≠ v →
            Event.failHeader (headerMsg tc.method tc.path k v
                (headerGet resp.headers k)) ∈ runAssertions d dg f tc resp)
        ∧ (∀ w, tc.expectRaw = some w → w ≠ resp.body →
            Event.failRaw (rawMsg tc.method tc.path w resp.body)
              ∈ runAssertions d dg f tc resp)
        ∧ (∀ j out, tc.expectJSON = some j → d resp.body = Except.ok out →
            f j out ≠ "" →
            Event.failDiff (diffMsg tc.method tc.path (f j out))
              ∈ runAssertions d dg f tc resp)
        ∧ ((∀ j, tc.expectJSON = some j → ∃ v, d resp.body = Except.ok v) →
            runAssertions d dg f tc resp
              = (if resp.readErr then [Event.errorReadBody] else []) ++
                  Event.logRaw resp.body ::
                    ((stepStatus tc resp).evs ++
                      ((stepHeaders tc.method tc.path tc.fatalFailure resp
                          tc.expectHeaders).evs ++
                        ((stepRaw tc resp).evs ++
                          ((stepJSON d f tc resp).evs ++
                            (stepCapture dg tc resp).evs)))))) := by
  refine ⟨?_, ?_, ?_⟩
  · obtain ⟨rest, hr⟩ := run_prefix d dg f tc resp
    rw [hr]
    cases resp.readErr <;> simp
  · intro hff
    refine ⟨?_, ?_, ?_, ?_⟩
    · intro hc hm
      have hst : stepStatus tc resp
          = .halt [Event.failStatus (statusMsg tc.method tc.path tc.expectCode
              resp.statusCode)] := by
        unfold stepStatus
        rw [if_pos (by simp [hc, hm]), hff]
        exact failStep_true _
      exact run_eq_halt_status hst
    · intro hsp hs1 k v hs2 hhs hmatch hne
      have hst := stepStatus_pass tc resp hsp
      have hh : stepHeaders tc.method tc.path tc.fatalFailure resp tc.expectHeaders
          = .halt [Event.failHeader (headerMsg tc.method tc.path k v
              (headerGet resp.headers k))] := by
        rw [hff, hhs]
        exact stepHeaders_halt_first tc.method tc.path resp hs1 k v hs2 hmatch hne
      exact run_eq_halt_header hst hh
    · intro hsp hmatch w hw hne
      have hst := stepStatus_pass tc resp hsp
      have hh := stepHeaders_pass tc.method tc.path tc.fatalFailure resp
        tc.expectHeaders hmatch
      have hr := stepRaw_halt tc resp hff w hw hne
      exact run_eq_halt_raw hst hh hr
    · intro hsp hmatch hraw j out hj hd hf
      have hst := stepStatus_pass tc resp hsp
      have hh := stepHeaders_pass tc.method tc.path tc.fatalFailure resp
        tc.expectHeaders hmatch
      have hr := stepRaw_pass tc resp hraw
      have hjh := stepJSON_halt_diff d f tc resp hff j out hj hd hf
      exact run_eq_halt_json hst hh hr hjh
  · intro hff
    obtain ⟨ec, hst⟩ := stepStatus_ok tc resp hff
    obtain ⟨eh, hh0⟩ := stepHeaders_ok tc.method tc.path resp tc.expectHeaders
    have hh : stepHeaders tc.method tc.path tc.fatalFailure resp tc.expectHeaders
        = .ok eh := by
      rw [hff]
      exact hh0
    obtain ⟨er, hr⟩ := stepRaw_ok tc resp hff
    refine ⟨?_, ?_, ?_, ?_, ?_⟩
    · intro hc hm
      have hst2 : stepStatus tc resp
          = .ok [Event.failStatus (statusMsg tc.method tc.path tc.expectCode
              resp.statusCode)] := by
        unfold stepStatus
        rw [if_pos (by simp [hc, hm]), hff]
        exact failStep_false _
      refine mem_run_of_status ?_
      rw [hst2]
      simp [StepRes.evs]
    · intro k v hmem hne
      refine mem_run_of_headers hst ?_
      rw [hff]
      exact stepHeaders_mem_mismatch tc.method tc.path resp tc.expectHeaders
        k v hmem hne
    · intro w hw hne
      refine mem_run_of_raw hst hh ?_
      rw [stepRaw_reported tc resp hff w hw hne]
      simp [StepRes.evs]
    · intro j out hj hd hf
      refine mem_run_of_json hst hh hr ?_
      rw [stepJSON_reported d f tc resp hff j out hj hd hf]
      simp [StepRes.evs]
    · intro hdec
      obtain ⟨ej, hj⟩ := stepJSON_ok d f tc resp hff hdec
      have hrun := run_evs_ok hst hh hr hj
        (show stepCapture dg tc resp = stepCapture dg tc resp from rfl)
      rw [hrun]
      simp [hst, hh, hr, hj, StepRes.evs]

/-- Witness for C3's amended theorem, covering three outcomes at concrete
inputs: a fail-fast header mismatch aborting exactly at its failure, a
fail-fast status mismatch aborting after a recorded read error and the dump,
and a raw-body mismatch recorded without fail-fast. -/
theorem failfast_upgrade_semantics_witness :
    runAssertions unitDecode unitDecode unitDiff
        (runOpts [ExpectHeader "X-A" "1", FatalFailure] (newTestCase Unit "GET" "/h"))
        ⟨200, emptyHeaders, "b", false⟩
      = [Event.logRaw "b", Event.failHeader (headerMsg "GET" "/h" "X-A" "1"
          (headerGet emptyHeaders "X-A"))]
    ∧ runAssertions unitDecode unitDecode unitDiff
        (runOpts [ExpectStatusCode 200, FatalFailure] (newTestCase Unit "POST" "/y"))
        ⟨500, emptyHeaders, "oops", true⟩
      = [Event.errorReadBody, Event.logRaw "oops",
         Event.failStatus (statusMsg "POST" "/y" 200 500)]
    ∧ Event.failRaw (rawMsg "GET" "/r" "yes" "no") ∈
        runAssertions unitDecode unitDecode unitDiff
          (runOpts [ExpectRawResponse (some "yes")] (newTestCase Unit "GET" "/r"))
          ⟨200, emptyHeaders, "no", false⟩ :=
  ⟨by
    have h := (((failfast_upgrade_semantics unitDecode unitDecode unitDiff
        (runOpts [ExpectHeader "X-A" "1", FatalFailure] (newTestCase Unit "GET" "/h"))
        ⟨200, emptyHeaders, "b", false⟩).2.1 rfl).2.1 (Or.inl rfl) [] "X-A" "1" []
        rfl (by simp) (by decide))
    simpa using h,
   by
    have h := (((failfast_upgrade_semantics unitDecode unitDecode unitDiff
        (runOpts [ExpectStatusCode 200, FatalFailure] (newTestCase Unit "POST" "/y"))
        ⟨500, emptyHeaders, "oops", true⟩).2.1 rfl).1 (by decide) (by decide))
    simpa using h,
   ((failfast_upgrade_semantics unitDecode unitDecode unitDiff
        (runOpts [ExpectRawResponse (some "yes")] (newTestCase Unit "GET" "/r"))
        ⟨200, emptyHeaders, "no", false⟩).2.2 rfl).2.2.1 "yes" rfl (by decide)⟩

/-- C4: the executor dumps the fully-read body before any assertion (with the
read-error report, if any, before that), evaluates the assertions in the
fixed order status, headers, raw body, structured comparison, capture (the
event list is sorted by pipeline position), and skips each step whose
specification field is unset. -/
theorem executor_order_and_skips {α γ : Type}
    (d : String → Except String α) (dg : String → Except String γ)
    (f : α → α → String) (tc : testCase α) (resp : Response) :
    List.Pairwise (fun a b => stepTag a ≤ stepTag b) (runAssertions d dg f tc resp)
    ∧ (runAssertions d dg f tc resp).take (if resp.readErr then 2 else 1)
        = (if resp.readErr then [Event.errorReadBody] else []) ++
            [Event.logRaw resp.body]
    ∧ (tc.expectCode = 0 →
        ∀ msg, Event.failStatus msg ∉ runAssertions d dg f tc resp)
    ∧ (tc.expectHeaders = [] →
        ∀ msg, Event.failHeader msg ∉ runAssertions d dg f tc resp)
    ∧ (tc.expectRaw = none →
        ∀ msg, Event.failRaw msg ∉ runAssertions d dg f tc resp)
    ∧ (tc.expectJSON = none →
        ∀ msg, Event.failDiff msg ∉ runAssertions d dg f tc resp
          ∧ Event.fatalDecode msg ∉ runAssertions d dg f tc resp)
    ∧ (tc.grabOutput = false →
        ∀ msg, Event.captured ∉ runAssertions d dg f tc resp
          ∧ Event.fatalCaptureDecode msg ∉ runAssertions d dg f tc resp) := by
  refine ⟨run_pairwise d dg f tc resp, ?_,
    fun h0 msg => no_failStatus_of_expectCode_zero h0 msg,
    fun h0 msg => no_failHeader_of_no_expectHeaders h0 msg,
    fun h0 msg => no_failRaw_of_expectRaw_none h0 msg,
    fun h0 msg => no_structured_events_of_expectJSON_none h0 msg,
    fun h0 msg => no_capture_events_of_not_grabOutput h0 msg⟩
  obtain ⟨rest, hr⟩ := run_prefix d dg f tc resp
  rw [hr]
  cases resp.readErr <;> simp

/-- Witness for C4 at a concrete run with nothing configured. -/
theorem executor_order_and_skips_witness :
    (runAssertions unitDecode unitDecode unitDiff (newTestCase Unit "GET" "/")
        ⟨200, emptyHeaders, "ok", false⟩).take 1 = [Event.logRaw "ok"]
    ∧ Event.failStatus "m" ∉ runAssertions unitDecode unitDecode unitDiff
        (newTestCase Unit "GET" "/") ⟨200, emptyHeaders, "ok", false⟩ :=
  ⟨(executor_order_and_skips unitDecode unitDecode unitDiff
      (newTestCase Unit "GET" "/") ⟨200, emptyHeaders, "ok", false⟩).2.1,
   (executor_order_and_skips unitDecode unitDecode unitDiff
      (newTestCase Unit "GET" "/") ⟨200, emptyHeaders, "ok", false⟩).2.2.1 rfl "m"⟩

/-- C5 (counterexample): a configured capture target is not reached when the
structured comparison's decode fails — that fatal failure ends the run, so
the body is never decoded into the capture target. -/
theorem capture_skipped_after_fatal_decode_cex :
    runAssertions unitDecodeFail unitDecodeFail unitDiff
        (runOpts [ExpectJSONResponse (), GrabJSONResponse] (newTestCase Unit "GET" "/x"))
        ⟨200, emptyHeaders, "nonsense", false⟩
      = [Event.logRaw "nonsense", Event.fatalDecode "decode failure"]
    ∧ Event.captured ∉
        runAssertions unitDecodeFail unitDecodeFail unitDiff
          (runOpts [ExpectJSONResponse (), GrabJSONResponse] (newTestCase Unit "GET" "/x"))
          ⟨200, emptyHeaders, "nonsense", false⟩
    ∧ (runOpts [ExpectJSONResponse (), GrabJSONResponse]
        (newTestCase Unit "GET" "/x")).grabOutput = true := by
  exact ⟨rfl, by decide, rfl⟩

/-- C5 (amended): in a run that reaches the capture step — no fail-fast
upgrade and no prior fatal decode failure — a configured capture target
receives the decoded body regardless of any reported failures before it, and
a decode failure at the capture step is fatal (it halts the run with the
fatal-capture event). -/
theorem capture_regardless_of_reported_failures {α γ : Type}
    (d : String → Except String α) (dg : String → Except String γ)
    (f : α → α → String) (tc : testCase α) (resp : Response)
    (hff : tc.fatalFailure = false) (hg : tc.grabOutput = true)
    (hd : ∀ j, tc.expectJSON = some j → ∃ v, d resp.body = Except.ok v) :
    (∀ v, dg resp.body = Except.ok v →
      Event.captured ∈ runAssertions d dg f tc resp)
    ∧ (∀ e, dg resp.body = Except.error e →
      stepCapture dg tc resp = StepRes.halt [Event.fatalCaptureDecode e]
      ∧ Event.fatalCaptureDecode e ∈ runAssertions d dg f tc resp) := by
  obtain ⟨ec, hst⟩ := stepStatus_ok tc resp hff
  obtain ⟨eh, hh0⟩ := stepHeaders_ok tc.method tc.path resp tc.expectHeaders
  have hh : stepHeaders tc.method tc.path tc.fatalFailure resp tc.expectHeaders
      = .ok eh := by rw [hff]; exact hh0
  obtain ⟨er, hr⟩ := stepRaw_ok tc resp hff
  obtain ⟨ej, hj⟩ := stepJSON_ok d f tc resp hff hd
  constructor
  · intro v hv
    have hcap : stepCapture dg tc resp = .ok [Event.captured] := by
      unfold stepCapture
      rw [hg, hv]
      rfl
    have hrun := run_evs_ok hst hh hr hj hcap
    rw [hrun]
    simp [StepRes.evs]
  · intro e he
    have hcap : stepCapture dg tc resp = .halt [Event.fatalCaptureDecode e] := by
      unfold stepCapture
      rw [hg, he]
      rfl
    refine ⟨hcap, ?_⟩
    have hrun := run_evs_ok hst hh hr hj hcap
    rw [hrun]
    simp [StepRes.evs]

/-- Witness for C5's amended theorem: capture runs and succeeds even though
the status assertion failed first. -/
theorem capture_regardless_of_reported_failures_witness :
    Event.captured ∈
      runAssertions unitDecode unitDecode unitDiff
        (runOpts [ExpectStatusCode 200, GrabJSONResponse] (newTestCase Unit "GET" "/z"))
        ⟨500, emptyHeaders, "body", false⟩ :=
  (capture_regardless_of_reported_failures unitDecode unitDecode unitDiff
      (runOpts [ExpectStatusCode 200, GrabJSONResponse] (newTestCase Unit "GET" "/z"))
      ⟨500, emptyHeaders, "body", false⟩ rfl rfl
      (fun j hj => by cases hj)).1 () rfl

end Tesuto
